import Mathlib

/-!
Verification of the Basic-Programming-Agent repository.

The development shallowly embeds the three Python source files:

* `src/simple_agent.py` — `extract_code_blocks` (two `re.findall` passes with
  lazy patterns) and the `main` conversation loop (quit tokens, history
  management, per-turn model-call error handling, `try/except/finally`
  resource cleanup).
* `src/config.py` — the E2B sandbox-backed `CodeExecutor`
  (`execute`, `stop`), whose external sandbox calls are modelled by
  `Except`-valued oracles (what Python's `except Exception` can catch).
* `src/vm_executor.py` — the gcloud-SSH-backed `VMExecutor`
  (`execute` with its stderr noise filter, `stop`); the subprocess is
  likewise an oracle.

Strings are modelled as `List Char`; Python dicts built by the executors are
association lists, so key presence/absence is faithfully observable.
-/

set_option linter.unusedVariables false

namespace BasicAgent

/-! ## Character and substring utilities -/

/-- The backtick character, written by code point. -/
def btick : Char := Char.ofNat 96

/-- Index of the first occurrence of `needle` as a contiguous sublist of
`hay` (the position a regex scan would find first), if any. -/
def indexOfSub? (needle : List Char) : List Char → Option Nat
  | [] => if needle.isPrefixOf ([] : List Char) then some 0 else none
  | c :: t =>
    if needle.isPrefixOf (c :: t) then some 0
    else (indexOfSub? needle t).map (fun n => n + 1)

/-- Fuel-indexed scan implementing Python's `re.findall` for patterns of the
shape `OP(.*?)CL` with `re.DOTALL`: at each position, if the literal opener
matches, the lazy group captures up to the earliest later occurrence of the
literal closer and the scan resumes after the closer; if the opener matches
but no closer follows anywhere, no further match is possible; otherwise the
scan advances one character. -/
def scanF (op cl : List Char) : Nat → List Char → List (List Char)
  | 0, _ => []
  | _ + 1, [] => []
  | f + 1, c :: t =>
    if op.isPrefixOf (c :: t) then
      match indexOfSub? cl ((c :: t).drop op.length) with
      | some i =>
        ((c :: t).drop op.length).take i ::
          scanF op cl f (((c :: t).drop op.length).drop (i + cl.length))
      | none => []
    else scanF op cl f t

/-- `re.findall` for the lazy two-literal patterns used in
`extract_code_blocks`, returning the captured groups in scan order. -/
def findall (op cl s : List Char) : List (List Char) :=
  scanF op cl s.length s

/-- The literal opener of the first pattern `r'```python\n(.*?)```'`. -/
def pyOpen : List Char := btick :: btick :: btick :: 'p' :: 'y' :: 't' :: 'h' :: 'o' :: 'n' :: '\n' :: []

/-- The literal opener of the second pattern `r'```\n(.*?)```'`. -/
def plainOpen : List Char := btick :: btick :: btick :: '\n' :: []

/-- The literal closer ` ``` ` shared by both patterns. -/
def fence : List Char := btick :: btick :: btick :: []

/-- `extract_code_blocks` from `src/simple_agent.py`: run both patterns in
order and concatenate the match lists (`code_blocks.extend(matches)`). -/
def extract_code_blocks (text : List Char) : List (List Char) :=
  findall pyOpen fence text ++ findall plainOpen fence text

/-! ## Python dict values and the executors' result records -/

/-- Values stored in the result dicts the executors build. -/
inductive PyValue where
  | pynone
  | pybool (b : Bool)
  | pystr (s : List Char)
  | pyobj (tag : Nat)
deriving DecidableEq

/-- A Python dict literal, as the association list it is written as. -/
abbrev PyDict := List (String × PyValue)

/-- `execution.logs` of the E2B sandbox client. -/
structure RunLogs where
  stdout : List Char
  stderr : List Char
deriving DecidableEq

/-- The value returned by `sandbox.run_code` in the sandbox client. -/
structure RunOutcome where
  logs : RunLogs
  error : PyValue
  results : PyValue
deriving DecidableEq

/-- Calls the executors make against their backends. -/
inductive BackendCall where
  | runCode (code : List Char)
  | closeBox
deriving DecidableEq

/-! ## `CodeExecutor` (src/config.py) -/

/-- The E2B executor state: `self.sandbox`, `None` until `start`. -/
structure CodeExecutor where
  sandbox : Option Nat
deriving DecidableEq

/-- The message returned when `execute` is called before `start`. -/
def sandboxInitMsg : List Char := "Sandbox not initialized. Call start() first.".data

/-- `f"Execution failed: {str(e)}"`. -/
def execFailedMsg (e : List Char) : List Char := "Execution failed: ".data ++ e

/-- `CodeExecutor.start`: stores the freshly created sandbox handle. -/
def CodeExecutor.start (self : CodeExecutor) (handle : Nat) : CodeExecutor :=
  { sandbox := some handle }

/-- `CodeExecutor.execute`. The external `await self.sandbox.run_code(code)`
is the oracle `run_code`; `Except.error e` is an exception (of the
`Exception` class, which the `try/except` catches) carrying `str(e)`.
Returns the result dict, the executor state after the call, and the backend
calls issued. -/
def CodeExecutor.execute (self : CodeExecutor) (code : List Char)
    (run_code : Except (List Char) RunOutcome) :
    PyDict × CodeExecutor × List BackendCall :=
  match self.sandbox with
  | none =>
    ([("success", .pybool false),
      ("error", .pystr sandboxInitMsg)], self, [])
  | some _ =>
    match run_code with
    | .ok execution =>
      ([("success", .pybool true),
        ("output", .pystr execution.logs.stdout),
        ("stderr", .pystr execution.logs.stderr),
        ("error", execution.error),
        ("results", execution.results)], self, [.runCode code])
    | .error e =>
      ([("success", .pybool false),
        ("error", .pystr (execFailedMsg e))], self, [.runCode code])

/-- `CodeExecutor.stop`: `if self.sandbox: await self.sandbox.close()`.
The field is not cleared, and the `close` call is not wrapped in a
`try/except`, so an exception from `close` propagates to the caller. -/
def CodeExecutor.stop (self : CodeExecutor) (close : Except (List Char) Unit) :
    Except (List Char) (CodeExecutor × List BackendCall) :=
  match self.sandbox with
  | none => .ok (self, [])
  | some _ =>
    match close with
    | .ok _ => .ok (self, [.closeBox])
    | .error e => .error e

/-! ## `VMExecutor` (src/vm_executor.py) -/

/-- The gcloud-SSH executor's configuration fields. -/
structure VMExecutor where
  vm_ip : List Char
  username : List Char
  vm_name : List Char
  zone : List Char
  project : List Char
deriving DecidableEq

/-- The outcome of the awaited gcloud subprocess: `process.returncode` and
the decoded `stdout`/`stderr`. -/
structure ProcResult where
  returncode : Int
  stdout : List Char
  stderr : List Char
deriving DecidableEq

/-- Python whitespace recognized by `str.strip()` (ASCII range). -/
def isWs (c : Char) : Bool :=
  c == ' ' || c == '\t' || c == '\n' || c == '\r' || c == Char.ofNat 11 || c == Char.ofNat 12

/-- ASCII `str.lower()` on one character. -/
def lowerC (c : Char) : Char :=
  if 65 ≤ c.toNat ∧ c.toNat ≤ 90 then Char.ofNat (c.toNat + 32) else c

/-- `str.lower()`. -/
def lowerL (s : List Char) : List Char := s.map lowerC

/-- `errors.split('\n')`, with Python's semantics (an empty string yields
one empty chunk; every separator produces a boundary). -/
def splitNl : List Char → List (List Char)
  | [] => [[]]
  | c :: t =>
    if c == '\n' then [] :: splitNl t
    else
      match splitNl t with
      | [] => [[c]]
      | h :: r => (c :: h) :: r

/-- `needle in hay` for strings. -/
def containsSub (needle hay : List Char) : Bool :=
  (indexOfSub? needle hay).isSome

/-- The hard-coded gcloud noise blacklist in `VMExecutor.execute`. -/
def noisePhrases : List (List Char) :=
  ["updating project ssh metadata".data,
   "waiting for ssh key to propagate".data,
   "warning: permanently added".data,
   "external ip address was not found".data]

/-- The list-comprehension filter on one stderr line:
`line.strip() and not any(noise in line.lower() for noise in [...])`. -/
def lineKept (line : List Char) : Bool :=
  line.any (fun c => !(isWs c)) &&
    !(noisePhrases.any (fun p => containsSub p (lowerL line)))

/-- The stderr post-filter of `VMExecutor.execute`: split into lines, keep
the non-noise non-blank ones, and rejoin with `'\n'.join`. -/
def filterNoise (errors : List Char) : List Char :=
  List.intercalate ['\n'] ((splitNl errors).filter lineKept)

/-- `VMExecutor.execute`. The awaited subprocess is the oracle `subproc`;
`Except.error e` is an exception caught by the `try/except`. -/
def VMExecutor.execute (self : VMExecutor) (code : List Char)
    (subproc : Except (List Char) ProcResult) : PyDict :=
  match subproc with
  | .ok p =>
    let clean_errors := filterNoise p.stderr
    [("success", .pybool (p.returncode == 0)),
     ("output", .pystr p.stdout),
     ("stderr", .pystr clean_errors),
     ("error", if p.returncode == 0 then .pynone else .pystr clean_errors),
     ("results", .pynone)]
  | .error e =>
    [("success", .pybool false),
     ("error", .pystr (execFailedMsg e)),
     ("output", .pystr []),
     ("stderr", .pystr [])]

/-- `VMExecutor.stop` only prints; it touches no state and cannot fail. -/
def VMExecutor.stop (self : VMExecutor) : VMExecutor := self

/-! ## The conversation loop (src/simple_agent.py, `main`) -/

/-- One entry of `conversation_history`. -/
inductive Turn where
  | user (text : List Char)
  | model (text : List Char)
deriving DecidableEq

/-- Observable actions of one loop iteration and of session teardown. -/
inductive Action where
  | modelCall
  | execCode (code : List Char)
  | stopCall
deriving DecidableEq

/-- `['quit', 'exit', 'q']`. -/
def quitTokens : List (List Char) := ["quit".data, "exit".data, "q".data]

/-- Python `str.strip()` (ASCII whitespace). -/
def stripWs (s : List Char) : List Char :=
  ((s.dropWhile isWs).reverse.dropWhile isWs).reverse

/-- Result of one pass through the `while True` body. -/
inductive StepRes where
  | quit (hist : List Turn)
  | cont (hist : List Turn)
deriving DecidableEq

/-- One iteration of the conversation loop on input `raw`: strip, test the
quit tokens, skip empty input, append the user turn, call the model
(`modelCall` oracle; `Except.error` is the exception the per-turn
`try/except` catches), on success append the model turn and execute every
extracted block in order, on failure drop the just-appended turn with
`conversation_history[:-1]`. -/
def stepTurn (hist : List Turn) (raw : List Char)
    (modelCall : Except (List Char) (List Char)) : StepRes × List Action :=
  let user_input := stripWs raw
  if lowerL user_input ∈ quitTokens then (.quit hist, [])
  else if user_input = [] then (.cont hist, [])
  else
    match modelCall with
    | .ok agent_text =>
      (.cont ((hist ++ [Turn.user user_input]) ++ [Turn.model agent_text]),
       Action.modelCall :: (extract_code_blocks agent_text).map Action.execCode)
    | .error _ =>
      (.cont (hist ++ [Turn.user user_input]).dropLast, [Action.modelCall])

/-- What the loop receives from the console each time `input()` runs: a
line, a `KeyboardInterrupt`, or another unhandled exception (e.g.
`EOFError`), which the outer `try` does not catch. -/
inductive InEvent where
  | line (raw : List Char) (modelCall : Except (List Char) (List Char))
  | interrupt
  | fatal (msg : List Char)

/-- How the session after a successful `start` ends. -/
inductive ExitKind where
  | normal
  | interrupted
  | crashed (msg : List Char)
deriving DecidableEq

/-- The `while True` loop from just after `executor.start()` to the point
the outer `try` is left: `none` means the given events were consumed
without leaving the loop (it is still blocked on `input()`). -/
def loopBody (hist : List Turn) : List InEvent → Option ExitKind × List Turn × List Action
  | [] => (none, hist, [])
  | e :: es =>
    match e with
    | .interrupt => (some .interrupted, hist, [])
    | .fatal m => (some (.crashed m), hist, [])
    | .line raw mc =>
      match stepTurn hist raw mc with
      | (.quit h, acts) => (some .normal, h, acts)
      | (.cont h, acts) =>
        ((loopBody h es).1, (loopBody h es).2.1, acts ++ (loopBody h es).2.2)

/-- The whole post-`start` session: the loop inside
`try ... except KeyboardInterrupt ... finally: await executor.stop()`.
Whenever the loop is left — quit, interrupt, or unhandled error — the
`finally` block runs `stop` once. -/
def runSession (events : List InEvent) : Option ExitKind × List Turn × List Action :=
  match (loopBody [] events).1 with
  | none => loopBody [] events
  | some k =>
    (some k, (loopBody [] events).2.1, (loopBody [] events).2.2 ++ [Action.stopCall])

/-- The process exit status for each way the session ends: a caught
interrupt and a quit token both let `main` return normally (exit 0); an
unhandled exception terminates the interpreter with a traceback. -/
def exitCode : ExitKind → Nat
  | .normal => 0
  | .interrupted => 0
  | .crashed _ => 1

/-! ## Scanner lemmas -/

theorem isPrefixOf_append_self (l r : List Char) : l.isPrefixOf (l ++ r) = true := by
  induction l with
  | nil => cases r <;> rfl
  | cons c t ih =>
    show (c == c && t.isPrefixOf (t ++ r)) = true
    rw [ih]
    simp

theorem scanF_mono (op cl : List Char) (hop : op ≠ []) :
    ∀ (f g : Nat) (s : List Char), s.length ≤ f → s.length ≤ g →
      scanF op cl f s = scanF op cl g s := by
  intro f
  induction f with
  | zero =>
    intro g s hf hg
    have hs : s = [] := List.length_eq_zero.mp (Nat.le_zero.mp hf)
    subst hs
    cases g <;> rfl
  | succ f ih =>
    intro g s hf hg
    cases s with
    | nil => cases g <;> rfl
    | cons c t =>
      cases g with
      | zero => simp at hg
      | succ g =>
        have hop1 : 1 ≤ op.length := List.length_pos.mpr hop
        have ht : t.length ≤ f := by simp at hf; omega
        have htg : t.length ≤ g := by simp at hg; omega
        by_cases hpre : op.isPrefixOf (c :: t) = true
        · have hdlen : ((c :: t).drop op.length).length ≤ t.length := by
            simp [List.length_drop]
            omega
          cases hidx : indexOfSub? cl ((c :: t).drop op.length) with
          | none => simp [scanF, hpre, hidx]
          | some i =>
            have hdlen2 : (((c :: t).drop op.length).drop (i + cl.length)).length ≤ t.length := by
              simp [List.length_drop] at hdlen ⊢
              omega
            simp only [scanF, hpre, if_true, hidx]
            exact congrArg _ (ih g _ (le_trans hdlen2 ht) (le_trans hdlen2 htg))
        · have hpre' : op.isPrefixOf (c :: t) = false := by
            cases h : op.isPrefixOf (c :: t) with
            | true => exact absurd h hpre
            | false => rfl
          simp only [scanF, hpre', if_false, Bool.false_eq_true]
          exact ih g t ht htg

theorem findall_nil (op cl : List Char) : findall op cl [] = [] := rfl

theorem findall_cons_neg (op cl : List Char) (c : Char) (t : List Char)
    (h : op.isPrefixOf (c :: t) = false) :
    findall op cl (c :: t) = findall op cl t := by
  show scanF op cl (t.length + 1) (c :: t) = scanF op cl t.length t
  simp [scanF, h]

theorem findall_opener_pos (op cl z : List Char) (i : Nat) (hop : op ≠ [])
    (hz : indexOfSub? cl z = some i) :
    findall op cl (op ++ z) =
      z.take i :: findall op cl (z.drop (i + cl.length)) := by
  cases op with
  | nil => exact absurd rfl hop
  | cons o op' =>
    have hpre : (o :: op').isPrefixOf (o :: (op' ++ z)) = true :=
      isPrefixOf_append_self (o :: op') z
    have hdropz : (o :: (op' ++ z)).drop (o :: op').length = z :=
      List.drop_left (o :: op') z
    show scanF (o :: op') cl ((op' ++ z).length + 1) (o :: (op' ++ z)) = _
    simp only [scanF, hpre, if_true, hdropz, hz]
    refine congrArg _ ?_
    refine scanF_mono (o :: op') cl hop _ _ _ ?_ ?_
    · calc (z.drop (i + cl.length)).length ≤ z.length := by
            simp [List.length_drop]
        _ ≤ (op' ++ z).length := by simp
    · exact le_refl _

theorem findall_opener_none (op cl z : List Char) (hop : op ≠ [])
    (hz : indexOfSub? cl z = none) :
    findall op cl (op ++ z) = [] := by
  cases op with
  | nil => exact absurd rfl hop
  | cons o op' =>
    have hpre : (o :: op').isPrefixOf (o :: (op' ++ z)) = true :=
      isPrefixOf_append_self (o :: op') z
    have hdropz : (o :: (op' ++ z)).drop (o :: op').length = z :=
      List.drop_left (o :: op') z
    show scanF (o :: op') cl ((op' ++ z).length + 1) (o :: (op' ++ z)) = []
    simp only [scanF, hpre, if_true, hdropz, hz]

/-- `s` contains no backtick, so no fence can start or end inside it. -/
def noTick (s : List Char) : Bool := s.all (fun c => !(c == btick))

theorem noTick_cons {c : Char} {t : List Char} (h : noTick (c :: t) = true) :
    (c == btick) = false ∧ noTick t = true := by
  simp only [noTick, List.all_cons, Bool.and_eq_true, Bool.not_eq_true'] at h
  exact ⟨h.1, h.2⟩

theorem noTick_append {a b : List Char} (ha : noTick a = true) (hb : noTick b = true) :
    noTick (a ++ b) = true := by
  simp only [noTick, List.all_append, Bool.and_eq_true]
  exact ⟨ha, hb⟩

/-- Scanning with a backtick-initial opener skips any backtick-free text. -/
theorem findall_skip (ops cl p z : List Char) (hp : noTick p = true) :
    findall (btick :: ops) cl (p ++ z) = findall (btick :: ops) cl z := by
  induction p with
  | nil => rfl
  | cons c t ih =>
    obtain ⟨hc, ht⟩ := noTick_cons hp
    have hbc : (btick == c) = false := by
      cases hcb : btick == c with
      | false => rfl
      | true =>
        rw [beq_iff_eq] at hcb
        rw [hcb.symm] at hc
        simp at hc
    have hpre : (btick :: ops).isPrefixOf (c :: (t ++ z)) = false := by
      show (btick == c && ops.isPrefixOf (t ++ z)) = false
      rw [hbc]
      rfl
    rw [List.cons_append, findall_cons_neg _ _ _ _ hpre]
    exact ih ht

/-- A backtick-free string is fully scanned away. -/
theorem findall_noTick (ops cl p : List Char) (hp : noTick p = true) :
    findall (btick :: ops) cl p = [] := by
  have := findall_skip ops cl p [] hp
  rw [List.append_nil] at this
  rw [this]
  rfl

/-- A backtick-initial needle does not occur in backtick-free text. -/
theorem indexOfSub_noTick (cl' h : List Char) (hh : noTick h = true) :
    indexOfSub? (btick :: cl') h = none := by
  induction h with
  | nil => rfl
  | cons c t ih =>
    obtain ⟨hc, ht⟩ := noTick_cons hh
    have hbc : (btick == c) = false := by
      cases hcb : btick == c with
      | false => rfl
      | true =>
        rw [beq_iff_eq] at hcb
        rw [hcb.symm] at hc
        simp at hc
    have hpre : (btick :: cl').isPrefixOf (c :: t) = false := by
      show (btick == c && cl'.isPrefixOf t) = false
      rw [hbc]
      rfl
    show (if (btick :: cl').isPrefixOf (c :: t) = true then some 0
          else (indexOfSub? (btick :: cl') t).map (fun n => n + 1)) = none
    rw [hpre]
    simp [ih ht]

/-- The earliest closer after a backtick-free capture is the one written
immediately after it. -/
theorem indexOfSub_at_closer (cl' code r : List Char) (hc : noTick code = true) :
    indexOfSub? (btick :: cl') (code ++ ((btick :: cl') ++ r)) = some code.length := by
  induction code with
  | nil =>
    have hpre : (btick :: cl').isPrefixOf (btick :: (cl' ++ r)) = true :=
      isPrefixOf_append_self (btick :: cl') r
    show (if (btick :: cl').isPrefixOf (btick :: (cl' ++ r)) = true then some 0
          else (indexOfSub? (btick :: cl') (cl' ++ r)).map (fun n => n + 1)) =
        some (List.length ([] : List Char))
    rw [hpre]
    rfl
  | cons c t ih =>
    obtain ⟨hcb, ht⟩ := noTick_cons hc
    have hbc : (btick == c) = false := by
      cases hq : btick == c with
      | false => rfl
      | true =>
        rw [beq_iff_eq] at hq
        rw [hq.symm] at hcb
        simp at hcb
    have hpre : (btick :: cl').isPrefixOf (c :: (t ++ ((btick :: cl') ++ r))) = false := by
      show (btick == c && cl'.isPrefixOf (t ++ ((btick :: cl') ++ r))) = false
      rw [hbc]
      rfl
    show (if (btick :: cl').isPrefixOf (c :: (t ++ ((btick :: cl') ++ r))) = true then some 0
          else (indexOfSub? (btick :: cl') (t ++ ((btick :: cl') ++ r))).map (fun n => n + 1)) =
        some (t.length + 1)
    rw [hpre]
    have ih' := ih ht
    simp only [List.cons_append] at ih' ⊢
    simp [ih']

/-! ## Well-formed replies built from fenced blocks -/

/-- `renderTagged pre blocks` is the reply consisting of the text `pre`
followed by the given Python-tagged fenced blocks, each one
` ```python\ncode``` ` followed by the text separating it from what comes
next. -/
def renderTagged : List Char → List (List Char × List Char) → List Char
  | pre, [] => pre
  | pre, (code, sep) :: rest =>
    pre ++ (pyOpen ++ (code ++ (fence ++ renderTagged sep rest)))

/-- Every block body and separator is backtick-free. -/
def blocksFree : List (List Char × List Char) → Bool
  | [] => true
  | (code, sep) :: rest => noTick code && noTick sep && blocksFree rest

/-- The text between two consecutive blocks is nonempty and does not begin
with a newline; the text after the last block is unrestricted. -/
def sepsOk : List (List Char × List Char) → Bool
  | [] => true
  | [_] => true
  | (_, sep) :: b :: rest =>
    (!sep.isEmpty && !(sep.head? == some '\n')) && sepsOk (b :: rest)

def pyTail : List Char := btick :: btick :: 'p' :: 'y' :: 't' :: 'h' :: 'o' :: 'n' :: '\n' :: []

def plainTail : List Char := btick :: btick :: '\n' :: []

def fenceTail : List Char := btick :: btick :: []

theorem pyOpen_def : pyOpen = btick :: pyTail := rfl

theorem plainOpen_def : plainOpen = btick :: plainTail := rfl

theorem fence_def : fence = btick :: fenceTail := rfl

theorem findall_py_skip (p z : List Char) (hp : noTick p = true) :
    findall pyOpen fence (p ++ z) = findall pyOpen fence z := by
  rw [pyOpen_def]
  exact findall_skip pyTail fence p z hp

theorem findall_plain_skip (p z : List Char) (hp : noTick p = true) :
    findall plainOpen fence (p ++ z) = findall plainOpen fence z := by
  rw [plainOpen_def]
  exact findall_skip plainTail fence p z hp

theorem findall_py_noTick (p : List Char) (hp : noTick p = true) :
    findall pyOpen fence p = [] := by
  rw [pyOpen_def]
  exact findall_noTick pyTail fence p hp

theorem findall_plain_noTick (p : List Char) (hp : noTick p = true) :
    findall plainOpen fence p = [] := by
  rw [plainOpen_def]
  exact findall_noTick plainTail fence p hp

theorem idx_fence (code r : List Char) (hc : noTick code = true) :
    indexOfSub? fence (code ++ (fence ++ r)) = some code.length := by
  rw [fence_def]
  exact indexOfSub_at_closer fenceTail code r hc

/-- The tagged pattern, scanning a block from its opening fence, captures
the block body and resumes after the closing fence. -/
theorem findall_py_block (code r : List Char) (hc : noTick code = true) :
    findall pyOpen fence (pyOpen ++ (code ++ (fence ++ r))) =
      code :: findall pyOpen fence r := by
  have hidx := idx_fence code r hc
  have hstep := findall_opener_pos pyOpen fence (code ++ (fence ++ r)) code.length
    (by rw [pyOpen_def]; simp) hidx
  rw [hstep]
  congr 1
  · exact List.take_left code (fence ++ r)
  · congr 1
    rw [← List.append_assoc]
    rw [show code.length + fence.length = (code ++ fence).length from
      (List.length_append _ _).symm]
    exact List.drop_left _ _

/-- The untagged pattern, scanning an untagged block from its opening
fence, captures the block body and resumes after the closing fence. -/
theorem findall_plain_block (code r : List Char) (hc : noTick code = true) :
    findall plainOpen fence (plainOpen ++ (code ++ (fence ++ r))) =
      code :: findall plainOpen fence r := by
  have hidx := idx_fence code r hc
  have hstep := findall_opener_pos plainOpen fence (code ++ (fence ++ r)) code.length
    (by rw [plainOpen_def]; simp) hidx
  rw [hstep]
  congr 1
  · exact List.take_left code (fence ++ r)
  · congr 1
    rw [← List.append_assoc]
    rw [show code.length + fence.length = (code ++ fence).length from
      (List.length_append _ _).symm]
    exact List.drop_left _ _

/-- Pass 1 on a well-formed tagged-only reply returns exactly the block
bodies, in source order. -/
theorem findall_py_render (blocks : List (List Char × List Char)) :
    ∀ pre, noTick pre = true → blocksFree blocks = true →
      findall pyOpen fence (renderTagged pre blocks) = blocks.map Prod.fst := by
  induction blocks with
  | nil =>
    intro pre hpre _
    exact findall_py_noTick pre hpre
  | cons b rest ih =>
    intro pre hpre hfree
    obtain ⟨code, sep⟩ := b
    have hfree' : (noTick code = true ∧ noTick sep = true) ∧ blocksFree rest = true := by
      simpa [blocksFree, Bool.and_eq_true] using hfree
    show findall pyOpen fence
        (pre ++ (pyOpen ++ (code ++ (fence ++ renderTagged sep rest)))) =
      code :: rest.map Prod.fst
    rw [findall_py_skip pre _ hpre]
    rw [findall_py_block code _ hfree'.1.1]
    rw [ih sep hfree'.1.2 hfree'.2]

theorem beq_false_symm {a b : Char} (h : (a == b) = false) : (b == a) = false :=
  beq_eq_false_iff_ne.mpr (Ne.symm (beq_eq_false_iff_ne.mp h))

/-- The untagged pattern cannot start anywhere inside a tagged opening
fence ` ```python\n `, because the fourth character is `p`, not a newline. -/
theorem plain_skip_pyOpen (z : List Char) :
    findall plainOpen fence (pyOpen ++ z) = findall plainOpen fence z := by
  have h0 := findall_cons_neg plainOpen fence btick
    (btick :: btick :: 'p' :: 'y' :: 't' :: 'h' :: 'o' :: 'n' :: '\n' :: z) rfl
  have h1 := findall_cons_neg plainOpen fence btick
    (btick :: 'p' :: 'y' :: 't' :: 'h' :: 'o' :: 'n' :: '\n' :: z) rfl
  have h2 := findall_cons_neg plainOpen fence btick
    ('p' :: 'y' :: 't' :: 'h' :: 'o' :: 'n' :: '\n' :: z) rfl
  have h3 : findall plainOpen fence ('p' :: 'y' :: 't' :: 'h' :: 'o' :: 'n' :: '\n' :: z) =
      findall plainOpen fence z := by
    rw [plainOpen_def]
    exact findall_skip plainTail fence
      ('p' :: 'y' :: 't' :: 'h' :: 'o' :: 'n' :: '\n' :: []) z (by decide)
  exact h0.trans (h1.trans (h2.trans h3))

/-- The tagged pattern cannot start anywhere inside an untagged opening
fence ` ```\n `, because `python` does not follow. -/
theorem py_skip_plainOpen (z : List Char) :
    findall pyOpen fence (plainOpen ++ z) = findall pyOpen fence z := by
  have h0 := findall_cons_neg pyOpen fence btick (btick :: btick :: '\n' :: z) rfl
  have h1 := findall_cons_neg pyOpen fence btick (btick :: '\n' :: z) rfl
  have h2 := findall_cons_neg pyOpen fence btick ('\n' :: z) rfl
  have h3 := findall_cons_neg pyOpen fence '\n' z rfl
  exact h0.trans (h1.trans (h2.trans h3))

/-- The untagged pattern does not fire at a closing fence that is followed
by a character other than a newline (and other than a backtick). -/
theorem plain_fence_step (c0 : Char) (z : List Char)
    (h1 : (c0 == '\n') = false) (h2 : (c0 == btick) = false) :
    findall plainOpen fence (fence ++ (c0 :: z)) = findall plainOpen fence (c0 :: z) := by
  have hnl : ('\n' == c0) = false := beq_false_symm h1
  have hbt : (btick == c0) = false := beq_false_symm h2
  have k0 : plainOpen.isPrefixOf (btick :: btick :: btick :: c0 :: z) = false := by
    show (btick == btick && (btick == btick && (btick == btick &&
      ('\n' == c0 && List.isPrefixOf ([] : List Char) z)))) = false
    rw [hnl]
    simp
  have k1 : plainOpen.isPrefixOf (btick :: btick :: c0 :: z) = false := by
    show (btick == btick && (btick == btick && (btick == c0 &&
      List.isPrefixOf ('\n' :: []) z))) = false
    rw [hbt]
    simp
  have k2 : plainOpen.isPrefixOf (btick :: c0 :: z) = false := by
    show (btick == btick && (btick == c0 &&
      List.isPrefixOf (btick :: '\n' :: []) z)) = false
    rw [hbt]
    simp
  have s0 := findall_cons_neg plainOpen fence btick (btick :: btick :: c0 :: z) k0
  have s1 := findall_cons_neg plainOpen fence btick (btick :: c0 :: z) k1
  have s2 := findall_cons_neg plainOpen fence btick (c0 :: z) k2
  exact s0.trans (s1.trans s2)

/-- Pass 2 finds nothing in a well-formed tagged-only reply whose
separators obey `sepsOk`. -/
theorem findall_plain_render (blocks : List (List Char × List Char)) :
    ∀ pre, noTick pre = true → blocksFree blocks = true → sepsOk blocks = true →
      findall plainOpen fence (renderTagged pre blocks) = [] := by
  induction blocks with
  | nil =>
    intro pre hpre _ _
    exact findall_plain_noTick pre hpre
  | cons b rest ih =>
    intro pre hpre hfree hsep
    obtain ⟨code, sep⟩ := b
    have hfree' : (noTick code = true ∧ noTick sep = true) ∧ blocksFree rest = true := by
      simpa [blocksFree, Bool.and_eq_true] using hfree
    show findall plainOpen fence
        (pre ++ (pyOpen ++ (code ++ (fence ++ renderTagged sep rest)))) = []
    rw [findall_plain_skip pre _ hpre, plain_skip_pyOpen,
      findall_plain_skip code _ hfree'.1.1]
    cases rest with
    | nil =>
      show findall plainOpen fence (fence ++ sep) = []
      cases sep with
      | nil => decide
      | cons c0 s' =>
        obtain ⟨hc0, hs'⟩ := noTick_cons hfree'.1.2
        by_cases hnl : c0 = '\n'
        · subst hnl
          refine findall_opener_none plainOpen fence s' (by rw [plainOpen_def]; simp) ?_
          rw [fence_def]
          exact indexOfSub_noTick fenceTail s' hs'
        · rw [plain_fence_step c0 s' (beq_eq_false_iff_ne.mpr hnl) hc0]
          exact findall_plain_noTick _ hfree'.1.2
    | cons b2 rest2 =>
      have hsep' : (sep.isEmpty = false ∧ (sep.head? == some '\n') = false) ∧
          sepsOk (b2 :: rest2) = true := by
        simpa [sepsOk, Bool.and_eq_true] using hsep
      cases sep with
      | nil => simp [List.isEmpty] at hsep'
      | cons c0 s' =>
        obtain ⟨hc0, hs'⟩ := noTick_cons hfree'.1.2
        have hnl : (c0 == '\n') = false := by
          have := hsep'.1.2
          simpa using this
        show findall plainOpen fence
          (fence ++ ((c0 :: s') ++ (pyOpen ++ (b2.1 ++ (fence ++ renderTagged b2.2 rest2))))) = []
        rw [show (c0 :: s') ++ (pyOpen ++ (b2.1 ++ (fence ++ renderTagged b2.2 rest2))) =
          c0 :: (s' ++ (pyOpen ++ (b2.1 ++ (fence ++ renderTagged b2.2 rest2)))) from rfl]
        rw [plain_fence_step c0 _ hnl hc0]
        show findall plainOpen fence (renderTagged (c0 :: s') (b2 :: rest2)) = []
        exact ih (c0 :: s') hfree'.1.2 hfree'.2 hsep'.2

/-- The tagged pattern does not fire at a closing fence that is followed by
backtick-free text not starting with `p`. -/
theorem py_fence_end (suf : List Char) (hsuf : noTick suf = true)
    (hp : (suf.head? == some 'p') = false) :
    findall pyOpen fence (fence ++ suf) = [] := by
  cases suf with
  | nil => decide
  | cons c0 s' =>
    obtain ⟨hc0, hs'⟩ := noTick_cons hsuf
    have hcp : ('p' == c0) = false := by
      have h : (c0 == 'p') = false := by simpa using hp
      exact beq_false_symm h
    have hbc0 : (btick == c0) = false := beq_false_symm hc0
    have k0 : pyOpen.isPrefixOf (btick :: btick :: btick :: c0 :: s') = false := by
      show (btick == btick && (btick == btick && (btick == btick && ('p' == c0 &&
        List.isPrefixOf ('y' :: 't' :: 'h' :: 'o' :: 'n' :: '\n' :: []) s')))) = false
      rw [hcp]
      simp
    have k1 : pyOpen.isPrefixOf (btick :: btick :: c0 :: s') = false := by
      show (btick == btick && (btick == btick && (btick == c0 &&
        List.isPrefixOf ('p' :: 'y' :: 't' :: 'h' :: 'o' :: 'n' :: '\n' :: []) s'))) = false
      rw [hbc0]
      simp
    have k2 : pyOpen.isPrefixOf (btick :: c0 :: s') = false := by
      show (btick == btick && (btick == c0 &&
        List.isPrefixOf (btick :: 'p' :: 'y' :: 't' :: 'h' :: 'o' :: 'n' :: '\n' :: []) s')) = false
      rw [hbc0]
      simp
    have s0 := findall_cons_neg pyOpen fence btick (btick :: btick :: c0 :: s') k0
    have s1 := findall_cons_neg pyOpen fence btick (btick :: c0 :: s') k1
    have s2 := findall_cons_neg pyOpen fence btick (c0 :: s') k2
    exact s0.trans (s1.trans (s2.trans (findall_py_noTick _ hsuf)))

/-- Both passes on a well-formed tagged-only reply: the tagged pass returns
the block bodies and the untagged pass returns nothing. -/
theorem extract_renderTagged (pre : List Char) (blocks : List (List Char × List Char))
    (hpre : noTick pre = true) (hfree : blocksFree blocks = true)
    (hsep : sepsOk blocks = true) :
    extract_code_blocks (renderTagged pre blocks) = blocks.map Prod.fst := by
  show findall pyOpen fence (renderTagged pre blocks) ++
      findall plainOpen fence (renderTagged pre blocks) = blocks.map Prod.fst
  rw [findall_py_render blocks pre hpre hfree,
    findall_plain_render blocks pre hpre hfree hsep]
  simp

/-! ## Loop lemmas -/

theorem execFailedMsg_ne_nil (e : List Char) : execFailedMsg e ≠ [] := by
  intro h
  have h2 : "Execution failed: ".data = [] ∧ e = [] := List.append_eq_nil.mp h
  exact absurd h2.1 (by decide)

theorem stopCall_not_in_stepTurn (hist : List Turn) (raw : List Char)
    (mc : Except (List Char) (List Char)) :
    Action.stopCall ∉ (stepTurn hist raw mc).2 := by
  unfold stepTurn
  by_cases hq : lowerL (stripWs raw) ∈ quitTokens
  · simp [hq]
  · by_cases hne : stripWs raw = []
    · simp [hq, hne, show lowerL [] ∉ quitTokens from by decide]
    · cases mc with
      | ok txt =>
        simp [hq, hne]
      | error e =>
        simp [hq, hne]

theorem stopCall_not_in_loopBody (events : List InEvent) :
    ∀ hist, Action.stopCall ∉ (loopBody hist events).2.2 := by
  induction events with
  | nil =>
    intro hist
    simp [loopBody]
  | cons e es ih =>
    intro hist
    cases e with
    | interrupt => simp [loopBody]
    | fatal m => simp [loopBody]
    | line raw mc =>
      have hstep := stopCall_not_in_stepTurn hist raw mc
      show Action.stopCall ∉ (match stepTurn hist raw mc with
        | (.quit h, acts) => (some ExitKind.normal, h, acts)
        | (.cont h, acts) =>
          ((loopBody h es).1, (loopBody h es).2.1, acts ++ (loopBody h es).2.2)).2.2
      cases hst : stepTurn hist raw mc with
      | mk res acts =>
        rw [hst] at hstep
        cases res with
        | quit h => simpa using hstep
        | cont h =>
          have hrec := ih h
          show Action.stopCall ∉ acts ++ (loopBody h es).2.2
          intro hmem
          cases List.mem_append.mp hmem with
          | inl hl => exact hstep hl
          | inr hr => exact hrec hr

/-! ## Claim theorems -/

/-- Claim C1: for every input string and every executor state, `execute`
on either variant is a total function (the embedding has no failure
outcome, mirroring the `try/except Exception` wrappers); the result record
always carries a boolean under the `success` key, and every internal
failure — uninitialized sandbox or a raised exception — produces
`success = false` together with a non-empty error message. -/
theorem claim1_execute_total (ce : CodeExecutor) (vm : VMExecutor) (code : List Char)
    (rc : Except (List Char) RunOutcome) (sp : Except (List Char) ProcResult) :
    (∃ b, ((CodeExecutor.execute ce code rc).1.lookup ("success")) = some (PyValue.pybool b)) ∧
    (∃ b, ((VMExecutor.execute vm code sp).lookup ("success")) = some (PyValue.pybool b)) ∧
    (∀ e, rc = .error e →
      ((CodeExecutor.execute ce code rc).1.lookup ("success")) = some (PyValue.pybool false) ∧
      ∃ m, ((CodeExecutor.execute ce code rc).1.lookup ("error")) = some (PyValue.pystr m) ∧
        m ≠ []) ∧
    (ce.sandbox = none →
      ((CodeExecutor.execute ce code rc).1.lookup ("success")) = some (PyValue.pybool false) ∧
      ∃ m, ((CodeExecutor.execute ce code rc).1.lookup ("error")) = some (PyValue.pystr m) ∧
        m ≠ []) ∧
    (∀ e, sp = .error e →
      ((VMExecutor.execute vm code sp).lookup ("success")) = some (PyValue.pybool false) ∧
      ∃ m, ((VMExecutor.execute vm code sp).lookup ("error")) = some (PyValue.pystr m) ∧
        m ≠ []) := by
  obtain ⟨sb⟩ := ce
  have hinit : sandboxInitMsg ≠ [] := by decide
  cases sb with
  | none =>
    cases rc with
    | ok ex =>
      cases sp with
      | ok p =>
        refine ⟨⟨false, by simp [CodeExecutor.execute, List.lookup]⟩,
          ⟨p.returncode == 0, by simp [VMExecutor.execute, List.lookup]⟩,
          ?_, ?_, ?_⟩
        · intro e he
          exact absurd he (by simp)
        · intro _
          exact ⟨by simp [CodeExecutor.execute, List.lookup],
            sandboxInitMsg, by simp [CodeExecutor.execute, List.lookup], hinit⟩
        · intro e he
          exact absurd he (by simp)
      | error e =>
        refine ⟨⟨false, by simp [CodeExecutor.execute, List.lookup]⟩,
          ⟨false, by simp [VMExecutor.execute, List.lookup]⟩,
          ?_, ?_, ?_⟩
        · intro e2 he
          exact absurd he (by simp)
        · intro _
          exact ⟨by simp [CodeExecutor.execute, List.lookup],
            sandboxInitMsg, by simp [CodeExecutor.execute, List.lookup], hinit⟩
        · intro e2 he
          exact ⟨by simp [VMExecutor.execute, List.lookup],
            execFailedMsg e, by simp [VMExecutor.execute, List.lookup],
            execFailedMsg_ne_nil e⟩
    | error er =>
      cases sp with
      | ok p =>
        refine ⟨⟨false, by simp [CodeExecutor.execute, List.lookup]⟩,
          ⟨p.returncode == 0, by simp [VMExecutor.execute, List.lookup]⟩,
          ?_, ?_, ?_⟩
        · intro e2 he
          exact ⟨by simp [CodeExecutor.execute, List.lookup],
            sandboxInitMsg, by simp [CodeExecutor.execute, List.lookup], hinit⟩
        · intro _
          exact ⟨by simp [CodeExecutor.execute, List.lookup],
            sandboxInitMsg, by simp [CodeExecutor.execute, List.lookup], hinit⟩
        · intro e2 he
          exact absurd he (by simp)
      | error e =>
        refine ⟨⟨false, by simp [CodeExecutor.execute, List.lookup]⟩,
          ⟨false, by simp [VMExecutor.execute, List.lookup]⟩,
          ?_, ?_, ?_⟩
        · intro e2 he
          exact ⟨by simp [CodeExecutor.execute, List.lookup],
            sandboxInitMsg, by simp [CodeExecutor.execute, List.lookup], hinit⟩
        · intro _
          exact ⟨by simp [CodeExecutor.execute, List.lookup],
            sandboxInitMsg, by simp [CodeExecutor.execute, List.lookup], hinit⟩
        · intro e2 he
          exact ⟨by simp [VMExecutor.execute, List.lookup],
            execFailedMsg e, by simp [VMExecutor.execute, List.lookup],
            execFailedMsg_ne_nil e⟩
  | some n =>
    cases rc with
    | ok ex =>
      cases sp with
      | ok p =>
        refine ⟨⟨true, by simp [CodeExecutor.execute, List.lookup]⟩,
          ⟨p.returncode == 0, by simp [VMExecutor.execute, List.lookup]⟩,
          ?_, ?_, ?_⟩
        · intro e he
          exact absurd he (by simp)
        · intro hnone
          exact absurd hnone (by simp)
        · intro e he
          exact absurd he (by simp)
      | error e =>
        refine ⟨⟨true, by simp [CodeExecutor.execute, List.lookup]⟩,
          ⟨false, by simp [VMExecutor.execute, List.lookup]⟩,
          ?_, ?_, ?_⟩
        · intro e2 he
          exact absurd he (by simp)
        · intro hnone
          exact absurd hnone (by simp)
        · intro e2 he
          exact ⟨by simp [VMExecutor.execute, List.lookup],
            execFailedMsg e, by simp [VMExecutor.execute, List.lookup],
            execFailedMsg_ne_nil e⟩
    | error er =>
      cases sp with
      | ok p =>
        refine ⟨⟨false, by simp [CodeExecutor.execute, List.lookup]⟩,
          ⟨p.returncode == 0, by simp [VMExecutor.execute, List.lookup]⟩,
          ?_, ?_, ?_⟩
        · intro e2 he
          exact ⟨by simp [CodeExecutor.execute, List.lookup],
            execFailedMsg er, by simp [CodeExecutor.execute, List.lookup],
            execFailedMsg_ne_nil er⟩
        · intro hnone
          exact absurd hnone (by simp)
        · intro e2 he
          exact absurd he (by simp)
      | error e =>
        refine ⟨⟨false, by simp [CodeExecutor.execute, List.lookup]⟩,
          ⟨false, by simp [VMExecutor.execute, List.lookup]⟩,
          ?_, ?_, ?_⟩
        · intro e2 he
          exact ⟨by simp [CodeExecutor.execute, List.lookup],
            execFailedMsg er, by simp [CodeExecutor.execute, List.lookup],
            execFailedMsg_ne_nil er⟩
        · intro hnone
          exact absurd hnone (by simp)
        · intro e2 he
          exact ⟨by simp [VMExecutor.execute, List.lookup],
            execFailedMsg e, by simp [VMExecutor.execute, List.lookup],
            execFailedMsg_ne_nil e⟩

/-- Witness for C1 at concrete failing oracles on both variants. -/
theorem claim1_witness :
    (CodeExecutor.execute ⟨some 0⟩ ['x'] (.error ['b'])).1.lookup ("success") =
      some (PyValue.pybool false) ∧
    (VMExecutor.execute ⟨[], [], [], [], []⟩ ['x'] (.error ['b'])).lookup ("success") =
      some (PyValue.pybool false) := by
  have h := claim1_execute_total ⟨some 0⟩ ⟨[], [], [], [], []⟩ ['x']
    (.error ['b']) (.error ['b'])
  exact ⟨(h.2.2.1 ['b'] rfl).1, (h.2.2.2.2 ['b'] rfl).1⟩

/-- Claim C4: if the model call of a user turn fails, the handler's
`conversation_history[:-1]` removes exactly the just-appended user turn, so
the history after the turn equals the history before it, the only action
taken was the model call, and the loop continues to await input (with no
further events, the loop is still running, history intact). -/
theorem claim4_model_failure_rollback (hist : List Turn) (raw msg : List Char)
    (hq : lowerL (stripWs raw) ∉ quitTokens) (hne : stripWs raw ≠ []) :
    stepTurn hist raw (.error msg) = (.cont hist, [Action.modelCall]) ∧
    loopBody hist [InEvent.line raw (.error msg)] = (none, hist, [Action.modelCall]) := by
  have h1 : stepTurn hist raw (.error msg) = (.cont hist, [Action.modelCall]) := by
    unfold stepTurn
    simp [hq, hne, List.dropLast_concat]
  refine ⟨h1, ?_⟩
  show (match stepTurn hist raw (.error msg) with
    | (.quit h, acts) => (some ExitKind.normal, h, acts)
    | (.cont h, acts) =>
      ((loopBody h []).1, (loopBody h []).2.1, acts ++ (loopBody h []).2.2)) =
    (none, hist, [Action.modelCall])
  rw [h1]
  rfl

/-- Witness for C4: a failed model call on input `"hi"` with a one-turn
history leaves the history as it was. -/
theorem claim4_witness :
    stepTurn [Turn.user ['a']] ('h' :: 'i' :: []) (.error ['b']) =
      (.cont [Turn.user ['a']], [Action.modelCall]) := by
  exact (claim4_model_failure_rollback [Turn.user ['a']] ('h' :: 'i' :: []) ['b']
    (by decide) (by decide)).1

/-- Claim C5: whenever the post-`start` session leaves its loop — quit
token, `KeyboardInterrupt`, or an unhandled error — the `finally` block has
run, and the full action trace contains exactly one `stop` call (the loop
itself never emits one). -/
theorem claim5_stop_exactly_once (events : List InEvent) (k : ExitKind) (h : List Turn)
    (acts : List Action) (hrun : runSession events = (some k, h, acts)) :
    acts.count Action.stopCall = 1 := by
  unfold runSession at hrun
  cases hk : (loopBody [] events).1 with
  | none =>
    rw [hk] at hrun
    simp at hrun
    rw [hrun] at hk
    simp at hk
  | some kk =>
    rw [hk] at hrun
    simp at hrun
    obtain ⟨hkk, hh, ha⟩ := hrun
    rw [← ha, List.count_append]
    have h0 : ((loopBody [] events).2.2).count Action.stopCall = 0 :=
      List.count_eq_zero.mpr (stopCall_not_in_loopBody events [])
    simp [h0]

/-- Witness for C5: a session ended by the quit token `q` stops exactly
once. -/
theorem claim5_witness :
    runSession [InEvent.line ['q'] (.ok [])] =
      (some .normal, [], [Action.stopCall]) ∧
    [Action.stopCall].count Action.stopCall = 1 := by
  refine ⟨by decide, ?_⟩
  exact claim5_stop_exactly_once [InEvent.line ['q'] (.ok [])] .normal []
    [Action.stopCall] (by decide)

/-- Claim C8: any input whose stripped, lower-cased form is `quit`, `exit`
or `q` ends the loop with no model call, leaves the history untouched, and
the session exits normally with exit status 0. -/
theorem claim8_quit_tokens (hist : List Turn) (raw : List Char)
    (mc : Except (List Char) (List Char)) (es : List InEvent)
    (hq : lowerL (stripWs raw) ∈ quitTokens) :
    stepTurn hist raw mc = (.quit hist, []) ∧
    loopBody hist (.line raw mc :: es) = (some .normal, hist, []) ∧
    exitCode .normal = 0 := by
  have h1 : stepTurn hist raw mc = (.quit hist, []) := by
    unfold stepTurn
    simp [hq]
  refine ⟨h1, ?_, rfl⟩
  show (match stepTurn hist raw mc with
    | (.quit h, acts) => (some ExitKind.normal, h, acts)
    | (.cont h, acts) =>
      ((loopBody h es).1, (loopBody h es).2.1, acts ++ (loopBody h es).2.2)) =
    (some .normal, hist, [])
  rw [h1]

/-- Witness for C8: the mixed-case, padded input `"  ExIt  "` is a quit
token; no model call happens and the history survives unchanged. -/
theorem claim8_witness :
    stepTurn [Turn.user ['a']] ("  ExIt  ".data) (.ok ['x']) =
      (.quit [Turn.user ['a']], []) ∧
    exitCode .normal = 0 := by
  have h := claim8_quit_tokens [Turn.user ['a']] ("  ExIt  ".data) (.ok ['x']) []
    (by decide)
  exact ⟨h.1, h.2.2⟩

/-- Claim C10: calling `execute` on a `CodeExecutor` whose sandbox is still
unset returns exactly the two-key failure record with the fixed message
`"Sandbox not initialized. Call start() first."`, leaves the state
unchanged, and issues no backend call at all. -/
theorem claim10_uninitialized_sandbox (code : List Char)
    (rc : Except (List Char) RunOutcome) :
    CodeExecutor.execute ⟨none⟩ code rc =
      ([("success", PyValue.pybool false), ("error", PyValue.pystr sandboxInitMsg)],
        ⟨none⟩, []) ∧
    sandboxInitMsg = "Sandbox not initialized. Call start() first.".data :=
  ⟨rfl, rfl⟩

/-- A reply consisting of exactly two well-formed Python-tagged fenced
blocks separated by a blank line, and no untagged block. -/
def c2Reply : List Char :=
  renderTagged [] [("A\n".data, "\n\n".data), ("B\n".data, [])]

/-- Claim C2 counterexample: the reply holds two Python-tagged blocks and
zero untagged blocks, yet extraction returns three strings — the untagged
pattern matches across the gap between the two blocks. -/
theorem claim2_counterexample :
    c2Reply = "```python\nA\n```\n\n```python\nB\n```".data ∧
    extract_code_blocks c2Reply = ["A\n".data, "B\n".data, "\n".data] ∧
    (extract_code_blocks c2Reply).length ≠ 2 := by
  refine ⟨by decide, by decide, by decide⟩

/-- Claim C2 (amended): for replies made of `N` well-formed Python-tagged
blocks whose bodies and separators are backtick-free and whose inter-block
separators are nonempty and do not begin with a newline, extraction returns
exactly the `N` bodies in source order; in particular a fence-free reply
yields `[]`, and the loop then performs the model call and nothing else. -/
theorem claim2_amended_extraction (pre : List Char)
    (blocks : List (List Char × List Char)) (hist : List Turn) (raw : List Char)
    (hpre : noTick pre = true) (hfree : blocksFree blocks = true)
    (hsep : sepsOk blocks = true)
    (hq : lowerL (stripWs raw) ∉ quitTokens) (hne : stripWs raw ≠ []) :
    extract_code_blocks (renderTagged pre blocks) = blocks.map Prod.fst ∧
    (stepTurn hist raw (.ok (renderTagged pre blocks))).2 =
      Action.modelCall :: (blocks.map Prod.fst).map Action.execCode := by
  have h1 := extract_renderTagged pre blocks hpre hfree hsep
  refine ⟨h1, ?_⟩
  unfold stepTurn
  simp [hq, hne, h1]

/-- Witness for C2 at one block and at zero blocks. -/
theorem claim2_witness :
    extract_code_blocks (renderTagged ("Sure:\n".data) [("print(1+1)\n".data, [])]) =
      ["print(1+1)\n".data] ∧
    extract_code_blocks (renderTagged ("no code here".data) []) = [] ∧
    (stepTurn [] "hi".data (.ok (renderTagged ("no code here".data) []))).2 =
      [Action.modelCall] := by
  have h1 := claim2_amended_extraction ("Sure:\n".data) [("print(1+1)\n".data, [])]
    [] "hi".data (by decide) (by decide) (by decide) (by decide) (by decide)
  have h2 := claim2_amended_extraction ("no code here".data) []
    [] "hi".data (by decide) (by decide) (by decide) (by decide) (by decide)
  exact ⟨h1.1, h2.1, h2.2⟩

/-- A reply holding one untagged block (body `B`) before one Python-tagged
block (body `A`). -/
def c3Reply : List Char := "```\nB\n```x```python\nA\n```".data

/-- Claim C3 counterexample: extraction on `c3Reply` returns the tagged
body first although it occurs later in the reply (`B` starts at index 4,
`A` at index 20), so the combined sequence is not order-preserving with
respect to the blocks in the reply. -/
theorem claim3_counterexample :
    extract_code_blocks c3Reply = ["A\n".data, "B\n".data] ∧
    indexOfSub? ("B\n".data) c3Reply = some 4 ∧
    indexOfSub? ("A\n".data) c3Reply = some 20 := by
  refine ⟨by decide, by decide, by decide⟩

/-- Claim C3 (amended): on every reply, extraction is the tagged-pattern
pass concatenated with the untagged-pattern pass (tagged matches first);
and for a reply consisting of backtick-free leading text, one Python-tagged
block with backtick-free body, separating text that is backtick-free,
nonempty and does not begin with a newline, one untagged block with
backtick-free body, and backtick-free trailing text not beginning with
`p`, the result is exactly the two bodies, tagged one first. (The
conditions are necessary: a bare `"\n"` separator makes the untagged
pattern fire at the tagged block's closing fence, losing the untagged
body, and a backtick or newline-initial separator similarly derails one of
the passes.) -/
theorem claim3_amended_two_styles (pre tc mid uc suf : List Char)
    (hpre : noTick pre = true) (htc : noTick tc = true) (hmidT : noTick mid = true)
    (huc : noTick uc = true) (hsuf : noTick suf = true)
    (hmidNe : mid ≠ []) (hmidNl : (mid.head? == some '\n') = false)
    (hsufp : (suf.head? == some 'p') = false) :
    (∀ t : List Char, extract_code_blocks t =
      findall pyOpen fence t ++ findall plainOpen fence t) ∧
    extract_code_blocks
      (pre ++ (pyOpen ++ (tc ++ (fence ++
        (mid ++ (plainOpen ++ (uc ++ (fence ++ suf)))))))) = [tc, uc] := by
  refine ⟨fun t => rfl, ?_⟩
  have p1 : findall pyOpen fence
      (pre ++ (pyOpen ++ (tc ++ (fence ++
        (mid ++ (plainOpen ++ (uc ++ (fence ++ suf)))))))) = [tc] := by
    rw [findall_py_skip pre _ hpre]
    rw [findall_py_block tc _ htc]
    rw [findall_py_skip mid _ hmidT]
    rw [py_skip_plainOpen]
    rw [findall_py_skip uc _ huc]
    rw [py_fence_end suf hsuf hsufp]
  have p2 : findall plainOpen fence
      (pre ++ (pyOpen ++ (tc ++ (fence ++
        (mid ++ (plainOpen ++ (uc ++ (fence ++ suf)))))))) = [uc] := by
    rw [findall_plain_skip pre _ hpre]
    rw [plain_skip_pyOpen]
    rw [findall_plain_skip tc _ htc]
    cases mid with
    | nil => exact absurd rfl hmidNe
    | cons m0 mid' =>
      obtain ⟨hm0, hmid'⟩ := noTick_cons hmidT
      have hm0nl : (m0 == '\n') = false := by simpa using hmidNl
      show findall plainOpen fence
        (fence ++ (m0 :: (mid' ++ (plainOpen ++ (uc ++ (fence ++ suf)))))) = [uc]
      rw [plain_fence_step m0 _ hm0nl hm0]
      show findall plainOpen fence
        ((m0 :: mid') ++ (plainOpen ++ (uc ++ (fence ++ suf)))) = [uc]
      rw [findall_plain_skip (m0 :: mid') _ hmidT]
      rw [findall_plain_block uc _ huc]
      rw [findall_plain_noTick suf hsuf]
  show findall pyOpen fence _ ++ findall plainOpen fence _ = [tc, uc]
  rw [p1, p2]
  rfl

/-- Witness for C3: a tagged block followed by an untagged block, both
extracted, tagged pass first. -/
theorem claim3_witness :
    extract_code_blocks
      ("intro ".data ++ (pyOpen ++ ("print(1)\n".data ++ (fence ++
        (" then ".data ++ (plainOpen ++ ("ls -l\n".data ++ (fence ++ " done".data)))))))) =
      ["print(1)\n".data, "ls -l\n".data] := by
  exact (claim3_amended_two_styles ("intro ".data) ("print(1)\n".data) (" then ".data)
    ("ls -l\n".data) (" done".data) (by decide) (by decide) (by decide) (by decide)
    (by decide) (by decide) (by decide) (by decide)).2

/-- Claim C6 counterexample: on the not-initialized failure branch of the
sandbox executor the returned record has only the keys `success` and
`error` — `output`, `stderr` and `results` are absent. -/
theorem claim6_counterexample :
    (CodeExecutor.execute ⟨none⟩ [] (.error [])).1.map Prod.fst =
      ["success", "error"] ∧
    (CodeExecutor.execute ⟨none⟩ [] (.error [])).1.lookup ("results") = none ∧
    (CodeExecutor.execute ⟨none⟩ [] (.error [])).1.lookup ("output") = none := by
  refine ⟨rfl, by decide, by decide⟩

/-- Claim C6 (amended): only the success branches of the two variants
return the full five-key record `success, output, stderr, error, results`;
the sandbox executor's failure branches return exactly
`success, error`, and the SSH executor's exception branch returns exactly
`success, error, output, stderr` (no `results`). -/
theorem claim6_amended_result_keys (n : Nat) (code : List Char) (ex : RunOutcome)
    (e : List Char) (vm : VMExecutor) (p : ProcResult) (rc : Except (List Char) RunOutcome) :
    (CodeExecutor.execute ⟨some n⟩ code (.ok ex)).1.map Prod.fst =
      ["success", "output", "stderr", "error", "results"] ∧
    (VMExecutor.execute vm code (.ok p)).map Prod.fst =
      ["success", "output", "stderr", "error", "results"] ∧
    (CodeExecutor.execute ⟨none⟩ code rc).1.map Prod.fst = ["success", "error"] ∧
    (CodeExecutor.execute ⟨some n⟩ code (.error e)).1.map Prod.fst =
      ["success", "error"] ∧
    (VMExecutor.execute vm code (.error e)).map Prod.fst =
      ["success", "error", "output", "stderr"] :=
  ⟨rfl, rfl, rfl, rfl, rfl⟩

/-- The concrete `VMExecutor` the agent builds from its defaults. -/
def sampleVM : VMExecutor :=
  ⟨"10.0.0.5".data, "agent".data, "agent-exec-instance".data,
    "us-central1-a".data, "beciren-advncanlytc-9595".data⟩

/-- Claim C7 counterexample: a remote `python3 -c "import sys; sys.exit(1)"`
that exits 1 while writing nothing to stderr yields `success = false` but
an empty error string — the promised non-empty message is not produced. -/
theorem claim7_counterexample :
    (VMExecutor.execute sampleVM ("import sys; sys.exit(1)".data)
        (.ok ⟨1, [], []⟩)).lookup ("success") = some (PyValue.pybool false) ∧
    (VMExecutor.execute sampleVM ("import sys; sys.exit(1)".data)
        (.ok ⟨1, [], []⟩)).lookup ("error") = some (PyValue.pystr []) := by
  refine ⟨by decide, by decide⟩

/-- Claim C7 (amended): a nonzero remote exit code always yields
`success = false`, and the `error` field holds the noise-filtered stderr —
which may be empty when the remote process wrote nothing to stderr. -/
theorem claim7_amended_nonzero_exit (vm : VMExecutor) (code : List Char)
    (p : ProcResult) (hrc : p.returncode ≠ 0) :
    (VMExecutor.execute vm code (.ok p)).lookup ("success") =
      some (PyValue.pybool false) ∧
    (VMExecutor.execute vm code (.ok p)).lookup ("error") =
      some (PyValue.pystr (filterNoise p.stderr)) := by
  have hb : (p.returncode == 0) = false := by
    simpa using hrc
  constructor
  · simp [VMExecutor.execute, List.lookup, hb]
  · simp [VMExecutor.execute, List.lookup, hb]

/-- Witness for C7: exit code 2 with one real stderr line. -/
theorem claim7_witness :
    (VMExecutor.execute sampleVM ['x'] (.ok ⟨2, [], "boom\n".data⟩)).lookup ("success") =
      some (PyValue.pybool false) ∧
    (VMExecutor.execute sampleVM ['x'] (.ok ⟨2, [], "boom\n".data⟩)).lookup ("error") =
      some (PyValue.pystr ("boom".data)) := by
  have h := claim7_amended_nonzero_exit sampleVM ['x'] ⟨2, [], "boom\n".data⟩ (by decide)
  refine ⟨h.1, ?_⟩
  rw [h.2]
  decide

/-- Claim C9 counterexample: after a successful `start`, a failing backend
`close` propagates out of `CodeExecutor.stop` — `stop` is not
unconditionally exception-free. -/
theorem claim9_counterexample :
    CodeExecutor.stop ⟨some 0⟩ (.error ("connection lost".data)) =
      .error ("connection lost".data) := rfl

/-- Claim C9 (amended): `stop` never mutates executor state on either
variant, so repeated calls see the same state; before `start` the sandbox
variant's `stop` is a guaranteed no-op that cannot raise and issues no
backend call, and the SSH variant's `stop` is total and idempotent; but
after `start` every `stop` call re-issues the backend `close` (the handle
is never cleared), returning normally with exactly that one backend call
when `close` succeeds, and raising exactly when `close` raises. -/
theorem claim9_amended_stop (ce : CodeExecutor) (close : Except (List Char) Unit)
    (vm : VMExecutor) :
    (ce.sandbox = none → CodeExecutor.stop ce close = .ok (ce, [])) ∧
    (∀ r, CodeExecutor.stop ce close = .ok r → r.1 = ce) ∧
    (∀ n u, ce.sandbox = some n → close = .ok u →
      CodeExecutor.stop ce close = .ok (ce, [BackendCall.closeBox])) ∧
    (∀ n e, ce.sandbox = some n → close = .error e →
      CodeExecutor.stop ce close = .error e) ∧
    VMExecutor.stop vm = vm ∧
    VMExecutor.stop (VMExecutor.stop vm) = VMExecutor.stop vm := by
  obtain ⟨sb⟩ := ce
  refine ⟨?_, ?_, ?_, ?_, rfl, rfl⟩
  · intro hnone
    simp at hnone
    subst hnone
    rfl
  · intro r hr
    cases sb with
    | none =>
      simp [CodeExecutor.stop] at hr
      rw [← hr]
    | some n =>
      cases close with
      | ok u => simp [CodeExecutor.stop] at hr; rw [← hr]
      | error e => simp [CodeExecutor.stop] at hr
  · intro n u hsome hok
    simp at hsome
    subst hsome
    subst hok
    rfl
  · intro n e hsome herr
    simp at hsome
    subst hsome
    subst herr
    rfl

/-- Witness for C9: stop before start is a no-op; after start a
successful close returns normally and issues exactly the close call; a
failing close propagates; the VM stop is a fixed point. -/
theorem claim9_witness :
    CodeExecutor.stop ⟨none⟩ (.ok ()) = .ok (⟨none⟩, []) ∧
    CodeExecutor.stop ⟨some 3⟩ (.ok ()) = .ok (⟨some 3⟩, [BackendCall.closeBox]) ∧
    CodeExecutor.stop ⟨some 3⟩ (.error ['z']) = .error ['z'] ∧
    VMExecutor.stop ⟨[], [], [], [], []⟩ = ⟨[], [], [], [], []⟩ := by
  have h := claim9_amended_stop ⟨none⟩ (.ok ()) ⟨[], [], [], [], []⟩
  have h2 := claim9_amended_stop ⟨some 3⟩ (.error ['z']) ⟨[], [], [], [], []⟩
  have h3 := claim9_amended_stop ⟨some 3⟩ (.ok ()) ⟨[], [], [], [], []⟩
  exact ⟨h.1 rfl, h3.2.2.1 3 () rfl rfl, h2.2.2.2.1 3 ['z'] rfl rfl, h.2.2.2.2.1⟩

end BasicAgent
